import Mathlib

/-!
Verification of the CDCL package-dependency solver core
(crates/rattler_libsolv_rs/src/solver/{mod.rs, decision_map.rs}).

Identifiers are dense integers, modelled as `Nat`:
solvable ids (root is id 0), clause ids, version-set ids, learnt-clause ids.
Machine integers: the decision map stores an `i64` (modelled as `Int`);
its `level()` accessor converts `unsigned_abs()` to `u32`, modelled by `% 2 ^ 32`.
-/

/-- The root solvable is always id 0. -/
def rootSolvable : Nat := 0

/-! ## decision_map.rs -/

/-- `DecisionAndLevel::new` from decision_map.rs: a single signed integer,
`level` when the value is true and `-level` when it is false. -/
def DecisionAndLevel.new (value : Bool) (level : Nat) : Int :=
  if value then (level : Int) else -(level : Int)

/-- `DecisionAndLevel::value` from decision_map.rs: sign of the entry. -/
def DecisionAndLevel.value (d : Int) : Option Bool :=
  if d < 0 then some false else if d = 0 then none else some true

/-- `DecisionAndLevel::level` from decision_map.rs: `self.0.unsigned_abs() as u32`. -/
def DecisionAndLevel.level (d : Int) : Nat :=
  d.natAbs % 2 ^ 32

/-- Modelled from the spec: `Mapping` (mapping.rs is not under src/) is a
per-solvable store of `DecisionAndLevel` entries; entries default to undecided
(0).  We model it as an association list where the most recent insertion wins. -/
structure DecisionMap where
  entries : List (Nat × Int)
deriving DecidableEq

/-- Look up the raw signed entry for a solvable; never-written solvables read 0
(undecided). -/
def DecisionMap.getRaw (m : DecisionMap) (s : Nat) : Int :=
  ((m.entries.find? (fun e => e.1 == s)).map (fun e => e.2)).getD 0

/-- `DecisionMap::set` from decision_map.rs. -/
def DecisionMap.set (m : DecisionMap) (s : Nat) (value : Bool) (level : Nat) : DecisionMap :=
  ⟨(s, DecisionAndLevel.new value level) :: m.entries⟩

/-- `DecisionMap::reset` from decision_map.rs: store the undecided entry. -/
def DecisionMap.reset (m : DecisionMap) (s : Nat) : DecisionMap :=
  ⟨(s, 0) :: m.entries⟩

/-- `DecisionMap::value` from decision_map.rs. -/
def DecisionMap.value (m : DecisionMap) (s : Nat) : Option Bool :=
  DecisionAndLevel.value (m.getRaw s)

/-- `DecisionMap::level` from decision_map.rs. -/
def DecisionMap.level (m : DecisionMap) (s : Nat) : Nat :=
  DecisionAndLevel.level (m.getRaw s)

theorem DecisionMap.getRaw_set_self (m : DecisionMap) (s : Nat) (v : Bool) (l : Nat) :
    (m.set s v l).getRaw s = DecisionAndLevel.new v l := by
  simp [DecisionMap.set, DecisionMap.getRaw, List.find?]

theorem DecisionMap.getRaw_reset_self (m : DecisionMap) (s : Nat) :
    (m.reset s).getRaw s = 0 := by
  simp [DecisionMap.reset, DecisionMap.getRaw, List.find?]

/-- **C7.** For every solvable `s`, boolean `v` and level `l ≥ 1` (fitting in a
`u32`), after `DecisionMap::set(s, v, l)` the accessors read back
`value(s) = Some(v)` and `level(s) = l`, and after `reset(s)` we get
`value(s) = None`: the signed-integer encoding (0 undecided, positive = true at
level `|v|`, negative = false at level `|v|`) round-trips. -/
theorem decisionMap_set_roundtrip (m : DecisionMap) (s : Nat) (v : Bool) (l : Nat)
    (h1 : 1 ≤ l) (h2 : l < 2 ^ 32) :
    (m.set s v l).value s = some v ∧ (m.set s v l).level s = l ∧
      (m.reset s).value s = none := by
  refine ⟨?_, ?_, ?_⟩
  · rw [DecisionMap.value, DecisionMap.getRaw_set_self]
    cases v
    · rw [show DecisionAndLevel.new false l = -(l : Int) from rfl, DecisionAndLevel.value,
        if_pos (by omega)]
    · rw [show DecisionAndLevel.new true l = (l : Int) from rfl, DecisionAndLevel.value,
        if_neg (by omega), if_neg (by omega)]
  · rw [DecisionMap.level, DecisionMap.getRaw_set_self]
    cases v <;> simp [DecisionAndLevel.new, DecisionAndLevel.level] <;> omega
  · rw [DecisionMap.value, DecisionMap.getRaw_reset_self]
    simp [DecisionAndLevel.value]

/-- Witness for C7 at `s = 5`, `v = false`, `l = 3`. -/
theorem decisionMap_set_roundtrip_witness :
    (1 ≤ 3 ∧ 3 < 2 ^ 32) ∧
      ((DecisionMap.mk []).set 5 false 3).value 5 = some false ∧
        ((DecisionMap.mk []).set 5 false 3).level 5 = 3 ∧
        ((DecisionMap.mk []).reset 5).value 5 = none :=
  ⟨⟨by decide, by norm_num⟩,
    decisionMap_set_roundtrip (DecisionMap.mk []) 5 false 3 (by decide) (by norm_num)⟩

/-- **C10.** `DecisionMap::set(s, v, 0)` with level 0 stores the undecided
encoding regardless of `v`: `value(s)` then returns `None` and `level(s)`
returns 0, so a decision recorded at level 0 is indistinguishable from an
undecided solvable. -/
theorem decisionMap_set_level_zero (m : DecisionMap) (s : Nat) (v : Bool) :
    (m.set s v 0).value s = none ∧ (m.set s v 0).level s = 0 := by
  constructor
  · rw [DecisionMap.value, DecisionMap.getRaw_set_self]
    cases v <;> simp [DecisionAndLevel.new, DecisionAndLevel.value]
  · rw [DecisionMap.level, DecisionMap.getRaw_set_self]
    cases v <;> simp [DecisionAndLevel.new, DecisionAndLevel.level]

/-! ## Literals, decisions, decision tracker -/

/-- Modelled from the spec: `Literal` (clause.rs is not under src/): a pair
(solvable id, negate?); a literal is satisfied when the solvable's current
assignment equals `!negate` (§3). -/
structure Literal where
  solvable_id : Nat
  negate : Bool
deriving DecidableEq

/-- Modelled from the spec: the assignment that satisfies the literal,
i.e. `!negate` (§3). -/
def Literal.satisfying_value (l : Literal) : Bool := !l.negate

/-- Modelled from the spec: literal evaluation under the current decision map
(`literal.eval(map)` as used in mod.rs): `Some(assignment == !negate)` when the
solvable is assigned, `None` when undecided. -/
def Literal.eval (l : Literal) (m : DecisionMap) : Option Bool :=
  (m.value l.solvable_id).map (fun v => v == !l.negate)

/-- Modelled from the spec: `Decision` (decision.rs is not under src/): a
record (solvable id, value, derived_from clause id) (§3). -/
structure Decision where
  solvable_id : Nat
  value : Bool
  derived_from : Nat
deriving DecidableEq

/-- `Decision::new` as used throughout mod.rs. -/
def Decision.new (s : Nat) (v : Bool) (derived : Nat) : Decision := ⟨s, v, derived⟩

/-- Modelled from the spec: the decision tracker (decision_tracker.rs is not
under src/, §4.2): the decision map plus the decision stack.  `trail` stores
the stack most-recent-first; `stack()` is chronological. -/
structure DecisionTracker where
  map : DecisionMap
  trail : List Decision
deriving DecidableEq

/-- Modelled from the spec (§4.2): the decision stack in chronological order. -/
def DecisionTracker.stack (t : DecisionTracker) : List Decision := t.trail.reverse

/-- Modelled from the spec (§4.2): `assigned_value` accessor. -/
def DecisionTracker.assigned_value (t : DecisionTracker) (s : Nat) : Option Bool :=
  t.map.value s

/-- Modelled from the spec (§4.2): `level` accessor. -/
def DecisionTracker.level (t : DecisionTracker) (s : Nat) : Nat := t.map.level s

/-- Modelled from the spec (§4.2): `try_add_decision` — undecided: record at
`level`, push, return changed (`true`); same value: no-op, return unchanged
(`false`); opposite value: fail. -/
def DecisionTracker.try_add_decision (t : DecisionTracker) (d : Decision) (level : Nat) :
    Except Unit (Bool × DecisionTracker) :=
  match t.map.value d.solvable_id with
  | none => .ok (true, ⟨t.map.set d.solvable_id d.value level, d :: t.trail⟩)
  | some v => if v = d.value then .ok (false, t) else .error ()

/-- Modelled from the spec (§4.2): `undo_last` — pop the stack, reset the
solvable's decision-map entry, return the popped decision and its level. -/
def DecisionTracker.undo_last (t : DecisionTracker) : Option (Decision × Nat × DecisionTracker) :=
  match t.trail with
  | [] => none
  | d :: rest => some (d, t.map.level d.solvable_id, ⟨t.map.reset d.solvable_id, rest⟩)

/-- Modelled from the spec (§4.2): repeatedly undo while the top decision's
level exceeds the target level. -/
def undoUntilAux : DecisionMap → List Decision → Nat → DecisionMap × List Decision
  | m, [], _ => (m, [])
  | m, d :: rest, target =>
    if target < m.level d.solvable_id then undoUntilAux (m.reset d.solvable_id) rest target
    else (m, d :: rest)

/-- Modelled from the spec (§4.2): `undo_until(target_level)`. -/
def DecisionTracker.undo_until (t : DecisionTracker) (target : Nat) : DecisionTracker :=
  let r := undoUntilAux t.map t.trail target
  ⟨r.1, r.2⟩

/-! ## Clauses -/

/-- `Clause` from mod.rs / clause.rs (the variant structure is visible in
mod.rs's matches; the full enum lives in clause.rs, not under src/, and is
modelled from the spec's table in §3). -/
inductive Clause where
  | InstallRoot
  | Requires (parent : Nat) (vs : Nat)
  | ForbidMultipleInstances (a : Nat) (b : Nat)
  | Lock (locked : Nat) (other : Nat)
  | Constrains (a : Nat) (b : Nat) (vs : Nat)
  | Learnt (id : Nat)
deriving DecidableEq

/-- Modelled from the spec: `ClauseState` (clause.rs is not under src/): the
kind plus the two watched-literal slots; clauses with fewer than two eligible
literals carry no watches (§3, §4.3).  The watch-chain successor pointers are
irrelevant to the claims below and are omitted. -/
structure ClauseState where
  kind : Clause
  watched_literals : Option (Nat × Nat)
deriving DecidableEq

/-- Modelled from the spec (§4.3): `has_watches`. -/
def ClauseState.has_watches (c : ClauseState) : Bool := c.watched_literals.isSome

/-- Modelled from the spec (§3, §4.3): the literal list of each clause kind:
`InstallRoot` is (root=true); `Requires(A, vs)` is `¬A` followed by the cached
sorted candidates of `vs` as positive literals; `ForbidMultipleInstances`,
`Lock` and `Constrains` have exactly two negative literals; `Learnt` literals
are stored out-of-line in the learnt store (out-of-range ids fail). -/
def Clause.literals (sortedCands : Nat → List Nat) (learntStore : List (List Literal)) :
    Clause → Option (List Literal)
  | .InstallRoot => some [⟨rootSolvable, false⟩]
  | .Requires a vs => some (⟨a, true⟩ :: (sortedCands vs).map (fun c => ⟨c, false⟩))
  | .ForbidMultipleInstances a b => some [⟨a, true⟩, ⟨b, true⟩]
  | .Lock l o => some [⟨l, true⟩, ⟨o, true⟩]
  | .Constrains a b _ => some [⟨a, true⟩, ⟨b, true⟩]
  | .Learnt i => learntStore.get? i

/-! ## C1: the transaction steps computed by `Solver::solve` -/

/-- The steps extraction at the end of `Solver::solve` (mod.rs lines 137-150):
flat-map over the decision stack keeping the solvable ids decided `true`,
except the root. -/
def transactionSteps (stack : List Decision) : List Nat :=
  stack.filterMap (fun d =>
    if d.value && d.solvable_id != rootSolvable then some d.solvable_id else none)

theorem filterMap_ite_eq_map_filter {α β : Type} (p : α → Bool) (f : α → β) (l : List α) :
    l.filterMap (fun a => if p a then some (f a) else none) = (l.filter p).map f := by
  induction l with
  | nil => rfl
  | cons a l ih =>
    by_cases h : p a = true
    · simp [List.filterMap_cons, List.filter_cons, h, ih]
    · simp [List.filterMap_cons, List.filter_cons, h, ih]

theorem transactionSteps_eq_filter (stack : List Decision) :
    transactionSteps stack =
      (stack.filter (fun d => d.value && d.solvable_id != rootSolvable)).map
        Decision.solvable_id :=
  filterMap_ite_eq_map_filter _ _ stack

/-- **C1.** The returned Transaction's steps are exactly the solvable ids on
the decision stack whose decided value is true, excluding the root solvable,
in decision-stack order; and (given the invariant that no solvable appears
twice on the stack) no solvable assigned false appears in the steps. -/
theorem transactionSteps_spec (stack : List Decision)
    (hnd : (stack.map Decision.solvable_id).Nodup) :
    transactionSteps stack =
        (stack.filter (fun d => d.value && d.solvable_id != rootSolvable)).map
          Decision.solvable_id ∧
      ∀ d ∈ stack, d.value = false → d.solvable_id ∉ transactionSteps stack := by
  refine ⟨transactionSteps_eq_filter stack, ?_⟩
  intro d hd hval hmem
  rw [transactionSteps, List.mem_filterMap] at hmem
  obtain ⟨d', hd', heq⟩ := hmem
  by_cases h : (d'.value && d'.solvable_id != rootSolvable) = true
  · rw [if_pos h] at heq
    obtain ⟨hval', -⟩ := Bool.and_eq_true_iff.mp h
    have hdd : d = d' := List.inj_on_of_nodup_map hnd hd hd' (by
      simpa using heq.symm)
    rw [hdd, hval'] at hval
    exact Bool.noConfusion hval
  · rw [if_neg h] at heq
    exact Option.noConfusion heq

/-- Witness for C1 on a concrete three-decision stack. -/
theorem transactionSteps_spec_witness :
    (([⟨0, true, 0⟩, ⟨1, true, 1⟩, ⟨2, false, 1⟩] :
          List Decision).map Decision.solvable_id).Nodup ∧
      (transactionSteps [⟨0, true, 0⟩, ⟨1, true, 1⟩, ⟨2, false, 1⟩] =
          (([⟨0, true, 0⟩, ⟨1, true, 1⟩, ⟨2, false, 1⟩] :
              List Decision).filter
            (fun d => d.value && d.solvable_id != rootSolvable)).map
            Decision.solvable_id ∧
        ∀ d ∈ ([⟨0, true, 0⟩, ⟨1, true, 1⟩, ⟨2, false, 1⟩] : List Decision),
          d.value = false →
            d.solvable_id ∉
              transactionSteps [⟨0, true, 0⟩, ⟨1, true, 1⟩, ⟨2, false, 1⟩]) :=
  ⟨by decide, transactionSteps_spec _ (by decide)⟩

/-! ## C9: `decide_requires_without_candidates` ignores two of its arguments -/

/-- The enumeration loop of `Solver::decide_requires_without_candidates`
(mod.rs lines 330-349): for every `Requires` clause without watches (a
dependency with no candidates), force its antecedent solvable to false at the
given level; a duplicate-decision failure aborts with the clause id. -/
def decideRequiresAux : DecisionTracker → Nat → List ClauseState → Nat →
    Except Nat DecisionTracker
  | tracker, _, [], _ => .ok tracker
  | tracker, level, c :: rest, i =>
    match c.kind with
    | .Requires solvable_id _ =>
      if c.has_watches then decideRequiresAux tracker level rest (i + 1)
      else
        match tracker.try_add_decision (Decision.new solvable_id false i) level with
        | .error _ => .error i
        | .ok (_, t') => decideRequiresAux t' level rest (i + 1)
    | _ => decideRequiresAux tracker level rest (i + 1)

/-- `Solver::decide_requires_without_candidates` (mod.rs lines 322-352),
including its two unused parameters `_locked_solvables` and
`_top_level_requirements`. -/
def decideRequiresWithoutCandidates (tracker : DecisionTracker) (level : Nat)
    (clauses : List ClauseState) (_lockedSolvables : List Nat)
    (_topLevelRequirements : List Nat) : Except Nat DecisionTracker :=
  decideRequiresAux tracker level clauses 0

/-- **C9.** Two calls to `decide_requires_without_candidates` from identical
solver states at the same level but with arbitrarily different
`locked_solvables` and `top_level_requirements` arguments return the same
result and the same resulting tracker state: both arguments are ignored. -/
theorem decideRequiresWithoutCandidates_ignores_args (tracker : DecisionTracker)
    (level : Nat) (clauses : List ClauseState) (locked₁ : List Nat) (top₁ : List Nat)
    (locked₂ : List Nat) (top₂ : List Nat) :
    decideRequiresWithoutCandidates tracker level clauses locked₁ top₁ =
      decideRequiresWithoutCandidates tracker level clauses locked₂ top₂ := rfl

/-! ## C6: favored-candidate rotation in the clause builder -/

/-- Rust `slice::rotate_right(1)` on a list: the last element moves to the
front; the empty list is unchanged. -/
def rotateRightOne {α : Type} (xs : List α) : List α :=
  xs.drop (xs.length - 1) ++ xs.take (xs.length - 1)

/-- The favoring step of `Solver::add_clauses_for_root_deps` (mod.rs lines
212-219): if a favored candidate exists for the dependency's package name and
occurs in the provider-sorted candidate list (`iter().position`), right-rotate
the prefix `0..=pos`, moving the favored candidate to the front. -/
def favorCandidates {α : Type} [BEq α] (candidates : List α) (favored : Option α) : List α :=
  match favored with
  | none => candidates
  | some f =>
    match candidates.findIdx? (fun s => s == f) with
    | none => candidates
    | some pos => rotateRightOne (candidates.take (pos + 1)) ++ candidates.drop (pos + 1)

theorem findIdx?_some_get {α : Type} (p : α → Bool) (l : List α) :
    ∀ (i r : Nat), List.findIdx? p l i = some r →
      i ≤ r ∧ ∃ a, l[r - i]? = some a ∧ p a = true := by
  induction l with
  | nil => intro i r h; simp [List.findIdx?] at h
  | cons x xs ih =>
    intro i r h
    rw [List.findIdx?_cons] at h
    by_cases hp : p x = true
    · rw [if_pos hp] at h
      cases h
      exact ⟨Nat.le_refl _, x, by simp, hp⟩
    · rw [if_neg hp] at h
      obtain ⟨hle, a, hget, hpa⟩ := ih (i + 1) r h
      refine ⟨by omega, a, ?_, hpa⟩
      have hri : r - i = (r - (i + 1)) + 1 := by omega
      rw [hri, List.getElem?_cons_succ]
      exact hget

theorem rotateRightOne_append_singleton {α : Type} (l : List α) (x : α) :
    rotateRightOne (l ++ [x]) = x :: l := by
  have h1 : (l ++ [x]).length - 1 = l.length := by simp
  rw [rotateRightOne, h1, List.drop_left, List.take_left]
  rfl

theorem favorCandidates_getElem (cs : List Nat) (f : Nat) (p : Nat)
    (h : cs.findIdx? (fun s => s == f) = some p) : cs[p]? = some f := by
  obtain ⟨-, a, hget, hpa⟩ := findIdx?_some_get (fun s => s == f) cs 0 p h
  have ha : a = f := eq_of_beq hpa
  rw [Nat.sub_zero] at hget
  rw [hget, ha]

theorem favorCandidates_eq (cs : List Nat) (f : Nat) (p : Nat)
    (h : cs.findIdx? (fun s => s == f) = some p) :
    favorCandidates cs (some f) = f :: (cs.take p ++ cs.drop (p + 1)) := by
  have hget : cs[p]? = some f := favorCandidates_getElem cs f p h
  simp only [favorCandidates, h]
  rw [List.take_succ, hget]
  rw [show (some f).toList = [f] from rfl, rotateRightOne_append_singleton]
  rfl

theorem favorCandidates_perm (cs : List Nat) (f : Nat) (p : Nat)
    (h : cs.findIdx? (fun s => s == f) = some p) :
    (favorCandidates cs (some f)).Perm cs := by
  obtain ⟨hp, hc⟩ := List.getElem?_eq_some.mp (favorCandidates_getElem cs f p h)
  rw [favorCandidates_eq cs f p h]
  have hdrop : cs.drop p = f :: cs.drop (p + 1) := by
    rw [List.drop_eq_getElem_cons hp, hc]
  refine List.Perm.trans List.perm_middle.symm ?_
  rw [← hdrop, List.take_append_drop]

/-- **C6.** If the favored candidate for a dependency's package name occurs at
position `p` of the provider-sorted candidate list, the cached sorted-candidate
list is that list with the prefix `0..=p` right-rotated by one: the favored
candidate sits at position 0, the candidates formerly at positions `0..p` are
each shifted one position later preserving their relative order, positions
after `p` are unchanged, and the result is a permutation of the input. -/
theorem favorCandidates_spec (cs : List Nat) (f : Nat) (p : Nat)
    (h : cs.findIdx? (fun s => s == f) = some p) :
    (favorCandidates cs (some f))[0]? = some f ∧
      (∀ i, i < p → (favorCandidates cs (some f))[i + 1]? = cs[i]?) ∧
      (∀ i, p < i → (favorCandidates cs (some f))[i]? = cs[i]?) ∧
      (favorCandidates cs (some f)).Perm cs := by
  have hget : cs[p]? = some f := favorCandidates_getElem cs f p h
  have hp : p < cs.length := (List.getElem?_eq_some.mp hget).1
  have hlen : (cs.take p).length = p := by
    rw [List.length_take]
    exact min_eq_left hp.le
  rw [favorCandidates_eq cs f p h]
  refine ⟨List.getElem?_cons_zero, ?_, ?_, ?_⟩
  · intro i hi
    rw [List.getElem?_cons_succ, List.getElem?_append, hlen, if_pos hi,
      List.getElem?_take, if_pos hi]
  · intro i hi
    obtain ⟨j, rfl⟩ : ∃ j, i = j + 1 := ⟨i - 1, by omega⟩
    rw [List.getElem?_cons_succ, List.getElem?_append_right (by omega), hlen,
      List.getElem?_drop]
    have hidx : p + 1 + (j - p) = j + 1 := by omega
    rw [hidx]
  · rw [← favorCandidates_eq cs f p h]
    exact favorCandidates_perm cs f p h

/-- Witness for C6: favoring 6 in the list `[5, 6, 7]` (position 1). -/
theorem favorCandidates_spec_witness :
    ([5, 6, 7] : List Nat).findIdx? (fun s => s == 6) = some 1 ∧
      ((favorCandidates [5, 6, 7] (some 6))[0]? = some 6 ∧
        (∀ i, i < 1 → (favorCandidates [5, 6, 7] (some 6))[i + 1]? =
          ([5, 6, 7] : List Nat)[i]?) ∧
        (∀ i, 1 < i → (favorCandidates [5, 6, 7] (some 6))[i]? =
          ([5, 6, 7] : List Nat)[i]?) ∧
        (favorCandidates [5, 6, 7] (some 6)).Perm [5, 6, 7]) :=
  ⟨by decide, favorCandidates_spec [5, 6, 7] 6 1 (by decide)⟩

/-! ## C2, C3: the branching scan of `resolve_dependencies` -/

/-- The per-clause branching condition of `Solver::resolve_dependencies`
(mod.rs lines 374-391): the clause is a `Requires(A, vs)` whose antecedent `A`
is currently assigned true and none of whose cached sorted candidates is
assigned true. -/
def branchCondition (tracker : DecisionTracker) (sortedCands : Nat → List Nat)
    (cl : ClauseState) : Bool :=
  match cl.kind with
  | .Requires solvable_id deps =>
    tracker.assigned_value solvable_id == some true &&
      !((sortedCands deps).any (fun cand => tracker.assigned_value cand == some true))
  | _ => false

/-- The clause scan of `Solver::resolve_dependencies` (mod.rs lines 364-405):
starting at cursor `i`, return the first clause satisfying the branching
condition as (clause index, antecedent solvable, version set id). -/
def findBranchClause (tracker : DecisionTracker) (sortedCands : Nat → List Nat) :
    List ClauseState → Nat → Option (Nat × Nat × Nat)
  | [], _ => none
  | ⟨.Requires solvable_id deps, _⟩ :: rest, i =>
    if tracker.assigned_value solvable_id == some true &&
        !((sortedCands deps).any (fun cand => tracker.assigned_value cand == some true)) then
      some (i, solvable_id, deps)
    else findBranchClause tracker sortedCands rest (i + 1)
  | _ :: rest, i => findBranchClause tracker sortedCands rest (i + 1)

/-- The branching literal of `Solver::resolve_dependencies` (mod.rs lines
397-404): the first candidate of the cached sorted candidate list that is
still undecided. -/
def branchCandidate (tracker : DecisionTracker) (sortedCands : Nat → List Nat)
    (deps : Nat) : Option Nat :=
  (sortedCands deps).find? (fun cand => (tracker.assigned_value cand).isNone)

/-- One iteration of the branching loop of `Solver::resolve_dependencies`
(mod.rs lines 365-407): scan for the first branchable Requires clause; on a
hit at index `k` the cursor has been incremented to `k + 1`, and the loop
passes `(required_by, candidate, ClauseId::new(k + 1))` to
`set_propagate_learn` — the clause id passed is computed from the
post-increment cursor. -/
def resolveStep (tracker : DecisionTracker) (sortedCands : Nat → List Nat)
    (clauses : List ClauseState) : Option (Nat × Option Nat × Nat) :=
  match findBranchClause tracker sortedCands clauses 0 with
  | none => none
  | some (k, requiredBy, deps) =>
    some (requiredBy, branchCandidate tracker sortedCands deps, k + 1)

/-- The decision recorded by `Solver::set_propagate_learn` for the branch
(mod.rs lines 443-445): `Decision::new(solvable, true, clause_id)` with the
clause id received from `resolve_dependencies`. -/
def branchDecision (tracker : DecisionTracker) (sortedCands : Nat → List Nat)
    (clauses : List ClauseState) : Option Decision :=
  match resolveStep tracker sortedCands clauses with
  | some (_, some cand, cid) => some (Decision.new cand true cid)
  | _ => none

theorem find?_first {α : Type} (p : α → Bool) :
    ∀ (l : List α) (a : α), l.find? p = some a →
      ∃ i, l[i]? = some a ∧ p a = true ∧
        ∀ (j : Nat) (b : α), j < i → l[j]? = some b → p b = false := by
  intro l
  induction l with
  | nil => intro a h; simp [List.find?] at h
  | cons x xs ih =>
    intro a h
    by_cases hp : p x = true
    · rw [List.find?_cons_of_pos _ hp] at h
      cases h
      exact ⟨0, by simp, hp, fun j b hj _ => absurd hj (by omega)⟩
    · rw [List.find?_cons_of_neg _ hp] at h
      obtain ⟨i, hget, hpa, hfirst⟩ := ih a h
      refine ⟨i + 1, by simpa using hget, hpa, ?_⟩
      intro j b hj hjb
      cases j with
      | zero =>
        rw [List.getElem?_cons_zero] at hjb
        cases hjb
        revert hp
        cases p x <;> simp
      | succ j' =>
        rw [List.getElem?_cons_succ] at hjb
        exact hfirst j' b (by omega) hjb

theorem findBranchClause_cons_skip (tracker : DecisionTracker)
    (sortedCands : Nat → List Nat) (cl : ClauseState) (rest : List ClauseState)
    (start k a vs : Nat)
    (hcl : branchCondition tracker sortedCands cl = false)
    (ihres : start + 1 ≤ k ∧
      (∃ cl', rest[k - (start + 1)]? = some cl' ∧ cl'.kind = .Requires a vs ∧
        branchCondition tracker sortedCands cl' = true) ∧
      ∀ (j : Nat) (cl' : ClauseState), j < k - (start + 1) → rest[j]? = some cl' →
        branchCondition tracker sortedCands cl' = false) :
    start ≤ k ∧
      (∃ cl', (cl :: rest)[k - start]? = some cl' ∧ cl'.kind = .Requires a vs ∧
        branchCondition tracker sortedCands cl' = true) ∧
      ∀ (j : Nat) (cl' : ClauseState), j < k - start → (cl :: rest)[j]? = some cl' →
        branchCondition tracker sortedCands cl' = false := by
  obtain ⟨hle, ⟨cl', hget, hkind', hcond⟩, hfirst⟩ := ihres
  refine ⟨by omega, ⟨cl', ?_, hkind', hcond⟩, ?_⟩
  · have hke : k - start = (k - (start + 1)) + 1 := by omega
    rw [hke, List.getElem?_cons_succ]
    exact hget
  · intro j cl'' hj hjb
    cases j with
    | zero =>
      rw [List.getElem?_cons_zero] at hjb
      cases hjb
      exact hcl
    | succ j' =>
      rw [List.getElem?_cons_succ] at hjb
      exact hfirst j' cl'' (by omega) hjb

theorem findBranchClause_go (tracker : DecisionTracker) (sortedCands : Nat → List Nat) :
    ∀ (clauses : List ClauseState) (start k a vs : Nat),
      findBranchClause tracker sortedCands clauses start = some (k, a, vs) →
      start ≤ k ∧
        (∃ cl, clauses[k - start]? = some cl ∧ cl.kind = .Requires a vs ∧
          branchCondition tracker sortedCands cl = true) ∧
        ∀ (j : Nat) (cl' : ClauseState), j < k - start → clauses[j]? = some cl' →
          branchCondition tracker sortedCands cl' = false := by
  intro clauses
  induction clauses with
  | nil => intro start k a vs h; simp [findBranchClause] at h
  | cons cl rest ih =>
    intro start k a vs h
    obtain ⟨kind, wl⟩ := cl
    cases kind
    case Requires sid deps =>
      simp only [findBranchClause] at h
      by_cases hc : (tracker.assigned_value sid == some true &&
          !((sortedCands deps).any
            (fun cand => tracker.assigned_value cand == some true))) = true
      · rw [if_pos hc] at h
        cases h
        refine ⟨Nat.le_refl _, ⟨⟨.Requires a vs, wl⟩, by simp, rfl, hc⟩, ?_⟩
        intro j cl' hj _
        exact absurd hj (by omega)
      · rw [if_neg hc] at h
        refine findBranchClause_cons_skip tracker sortedCands _ rest start k a vs ?_
          (ih (start + 1) k a vs h)
        have hred : branchCondition tracker sortedCands ⟨.Requires sid deps, wl⟩ =
            (tracker.assigned_value sid == some true &&
              !((sortedCands deps).any
                (fun cand => tracker.assigned_value cand == some true))) := rfl
        rw [hred]
        revert hc
        cases tracker.assigned_value sid == some true &&
          !((sortedCands deps).any
            (fun cand => tracker.assigned_value cand == some true)) <;> simp
    case InstallRoot =>
      exact findBranchClause_cons_skip tracker sortedCands _ rest start k a vs rfl
        (ih (start + 1) k a vs h)
    case ForbidMultipleInstances x y =>
      exact findBranchClause_cons_skip tracker sortedCands _ rest start k a vs rfl
        (ih (start + 1) k a vs h)
    case Lock x y =>
      exact findBranchClause_cons_skip tracker sortedCands _ rest start k a vs rfl
        (ih (start + 1) k a vs h)
    case Constrains x y z =>
      exact findBranchClause_cons_skip tracker sortedCands _ rest start k a vs rfl
        (ih (start + 1) k a vs h)
    case Learnt x =>
      exact findBranchClause_cons_skip tracker sortedCands _ rest start k a vs rfl
        (ih (start + 1) k a vs h)

/-- **C2.** On each iteration of its scan, `resolve_dependencies` selects the
lowest-index `Requires(A, vs)` clause such that `A` is currently assigned true
and no candidate of `vs` is assigned true, and the branching literal it passes
to `set_propagate_learn` is the first candidate in vs's cached sorted
candidate list that is still undecided. -/
theorem resolveDependencies_branch_spec (tracker : DecisionTracker)
    (sortedCands : Nat → List Nat) (clauses : List ClauseState) (k a vs : Nat)
    (h : findBranchClause tracker sortedCands clauses 0 = some (k, a, vs)) :
    (∃ cl, clauses[k]? = some cl ∧ cl.kind = .Requires a vs ∧
      tracker.assigned_value a = some true ∧
      ∀ cand ∈ sortedCands vs, tracker.assigned_value cand ≠ some true) ∧
      (∀ (j : Nat) (cl' : ClauseState), j < k → clauses[j]? = some cl' →
        branchCondition tracker sortedCands cl' = false) ∧
      resolveStep tracker sortedCands clauses =
        some (a, branchCandidate tracker sortedCands vs, k + 1) ∧
      ∀ cand, branchCandidate tracker sortedCands vs = some cand →
        ∃ i, (sortedCands vs)[i]? = some cand ∧ tracker.assigned_value cand = none ∧
          ∀ (j b : Nat), j < i → (sortedCands vs)[j]? = some b →
            tracker.assigned_value b ≠ none := by
  obtain ⟨-, ⟨cl, hget, hkind, hcond⟩, hfirst⟩ :=
    findBranchClause_go tracker sortedCands clauses 0 k a vs h
  rw [Nat.sub_zero] at hget hfirst
  obtain ⟨ck, cw⟩ := cl
  cases hkind
  replace hcond : (tracker.assigned_value a == some true &&
      !((sortedCands vs).any
        (fun cand => tracker.assigned_value cand == some true))) = true := hcond
  obtain ⟨h1, h2⟩ := Bool.and_eq_true_iff.mp hcond
  have hassigned : tracker.assigned_value a = some true := beq_iff_eq.mp h1
  have hnoc : ∀ cand ∈ sortedCands vs, tracker.assigned_value cand ≠ some true := by
    have hany : (sortedCands vs).any
        (fun cand => tracker.assigned_value cand == some true) = false := by
      simpa using h2
    intro cand hc hcontra
    have := List.any_eq_false.mp hany cand hc
    rw [hcontra] at this
    simp at this
  refine ⟨⟨⟨.Requires a vs, cw⟩, hget, rfl, hassigned, hnoc⟩, hfirst, ?_, ?_⟩
  · simp only [resolveStep, h]
  · intro cand hcand
    obtain ⟨i, hgi, hpa, hfirstc⟩ := find?_first _ (sortedCands vs) cand hcand
    refine ⟨i, hgi, Option.isNone_iff_eq_none.mp hpa, ?_⟩
    intro j b hj hjb heq
    have := hfirstc j b hj hjb
    rw [heq] at this
    simp at this

/-- Concrete solver state used to exercise the branching scan below: solvable
1 is assigned true at level 1, version set 0 has sorted candidates `[2, 3]`
(both undecided), and the clause list is `[InstallRoot, Requires(1, 0)]`. -/
def scanTracker : DecisionTracker := ⟨⟨[(1, 1)]⟩, [Decision.new 1 true 0]⟩

/-- Sorted-candidate cache for the concrete scan state. -/
def scanSorted : Nat → List Nat := fun _ => [2, 3]

/-- Clause list for the concrete scan state. -/
def scanClauses : List ClauseState :=
  [⟨.InstallRoot, none⟩, ⟨.Requires 1 0, some (0, 1)⟩]

/-- Witness for C2: on the concrete scan state, the scan picks the Requires
clause at index 1 and the first undecided candidate. -/
theorem resolveDependencies_branch_spec_witness :
    findBranchClause scanTracker scanSorted scanClauses 0 = some (1, 1, 0) ∧
      ((∃ cl, scanClauses[1]? = some cl ∧ cl.kind = .Requires 1 0 ∧
        scanTracker.assigned_value 1 = some true ∧
        ∀ cand ∈ scanSorted 0, scanTracker.assigned_value cand ≠ some true) ∧
      (∀ (j : Nat) (cl' : ClauseState), j < 1 → scanClauses[j]? = some cl' →
        branchCondition scanTracker scanSorted cl' = false) ∧
      resolveStep scanTracker scanSorted scanClauses =
        some (1, branchCandidate scanTracker scanSorted 0, 1 + 1) ∧
      ∀ cand, branchCandidate scanTracker scanSorted 0 = some cand →
        ∃ i, (scanSorted 0)[i]? = some cand ∧ scanTracker.assigned_value cand = none ∧
          ∀ (j b : Nat), j < i → (scanSorted 0)[j]? = some b →
            scanTracker.assigned_value b ≠ none) :=
  ⟨by decide, resolveDependencies_branch_spec scanTracker scanSorted scanClauses
    1 1 0 (by decide)⟩

/-- **C3** (evaluation at the failing input). On the concrete scan state the
branching scan picks the Requires clause stored at index 1, but the decision
recorded by `set_propagate_learn` for the chosen candidate has
`derived_from = 2`: `resolve_dependencies` increments its cursor before
computing `ClauseId::new(i)` (mod.rs lines 372 and 407), so the recorded
clause id is the post-increment index, not the id of the branched clause. -/
theorem branchDecision_derived_from_post_increment :
    findBranchClause scanTracker scanSorted scanClauses 0 = some (1, 1, 0) ∧
      branchDecision scanTracker scanSorted scanClauses =
        some (Decision.new 2 true 2) ∧
      (Decision.new 2 true 2).derived_from ≠ 1 := by decide

/-! ## C5: the conflict tuple returned by watch-driven propagation -/

/-- Modelled from the spec (§4.3): `ClauseState::watch_turned_false` — called
when `pkg` has just been assigned; if one of the two watched literals (the one
whose solvable is `pkg`) is now false, return both watched literals and the
slot of the false one. -/
def ClauseState.watch_turned_false (cl : ClauseState) (pkg : Nat) (m : DecisionMap)
    (sortedCands : Nat → List Nat) (learntStore : List (List Literal)) :
    Option ((Literal × Literal) × Nat) :=
  match cl.watched_literals with
  | none => none
  | some (i, j) =>
    match cl.kind.literals sortedCands learntStore with
    | none => none
    | some lits =>
      match lits[i]?, lits[j]? with
      | some w0, some w1 =>
        if w0.solvable_id == pkg && (w0.eval m == some false) then some ((w0, w1), 0)
        else if w1.solvable_id == pkg && (w1.eval m == some false) then some ((w0, w1), 1)
        else none
      | _, _ => none

/-- Modelled from the spec (§4.3): `ClauseState::next_unwatched_variable` —
a literal index not currently watched whose value is true or undecided. -/
def ClauseState.next_unwatched_variable (cl : ClauseState) (m : DecisionMap)
    (sortedCands : Nat → List Nat) (learntStore : List (List Literal)) : Option Nat :=
  match cl.watched_literals with
  | none => none
  | some (i, j) =>
    match cl.kind.literals sortedCands learntStore with
    | none => none
    | some lits =>
      (List.range lits.length).find? (fun idx =>
        idx != i && idx != j &&
          (match lits[idx]? with
           | some lit => lit.eval m != some false
           | none => false))

/-- Outcome of processing one clause on a watch chain during propagation. -/
inductive PropagateStepResult where
  | noChange
  | movedWatch (variableIndex : Nat)
  | propagated (tracker : DecisionTracker)
  | conflict (solvable : Nat) (attempted : Bool) (clauseId : Nat)
deriving DecidableEq

/-- The per-clause body of the watch walk in `Solver::propagate` (mod.rs lines
605-668): when a watched literal turned false, look for a replacement watch;
if one exists the watch moves; otherwise the remaining watched literal becomes
a unit and the solver attempts
`Decision::new(remaining.solvable_id, remaining.satisfying_value(), this_id)`;
on a duplicate-decision failure the source returns the conflict tuple
`(remaining_watch.solvable_id, true, this_clause_id)` — the attempted-value
slot is the literal constant `true` (mod.rs line 651). -/
def propagateClauseStep (cl : ClauseState) (thisClauseId : Nat) (pkg : Nat)
    (tracker : DecisionTracker) (level : Nat) (sortedCands : Nat → List Nat)
    (learntStore : List (List Literal)) : PropagateStepResult :=
  match cl.watch_turned_false pkg tracker.map sortedCands learntStore with
  | none => .noChange
  | some ((w0, w1), watchIndex) =>
    match cl.next_unwatched_variable tracker.map sortedCands learntStore with
    | some v => .movedWatch v
    | none =>
      let remainingWatch := if watchIndex = 0 then w1 else w0
      match tracker.try_add_decision
          (Decision.new remainingWatch.solvable_id remainingWatch.satisfying_value
            thisClauseId) level with
      | .error _ => .conflict remainingWatch.solvable_id true thisClauseId
      | .ok (_, t') => .propagated t'

/-- Concrete propagation state for C5: clause `ForbidMultipleInstances(2, 3)`
watching slots (0, 1); solvable 2 was just assigned true at level 2 and
solvable 3 is already true at level 1. -/
def conflictClause : ClauseState := ⟨.ForbidMultipleInstances 2 3, some (0, 1)⟩

/-- Tracker for the C5 scenario: 2 ↦ true@2, 3 ↦ true@1. -/
def conflictTracker : DecisionTracker :=
  ⟨⟨[(2, 2), (3, 1)]⟩, [Decision.new 2 true 1, Decision.new 3 true 0]⟩

/-- **C5** (evaluation at the failing input). Propagating the assignment of
solvable 2 against `ForbidMultipleInstances(2, 3)` finds the watch on 2 turned
false with no replacement; the remaining watched literal is `¬3`, whose
satisfying value is `false`, and solvable 3 already holds the opposite value
`true`, so the unit assignment fails — but the conflict tuple returned is
`(3, true, clause)`: the attempted-value component is the hardcoded constant
`true`, not the remaining literal's satisfying value `false` as the claim
states. -/
theorem propagateClauseStep_conflict_hardcodes_true :
    propagateClauseStep conflictClause 7 2 conflictTracker 2 (fun _ => []) [] =
        .conflict 3 true 7 ∧
      (Literal.mk 3 true).satisfying_value = false ∧
      conflictTracker.assigned_value 3 = some true ∧
      (conflictTracker.try_add_decision
          (Decision.new 3 (Literal.mk 3 true).satisfying_value 7) 2).isOk = false := by
  decide

/-! ## C8: the worklist loop of `add_clauses_for_root_deps` -/

/-- Modelled from the spec (§3): the per-solvable data consulted by the clause
builder — the dependency and constrains version-set lists (solvable.rs is not
under src/).  The pool holds `n` solvables with dense ids `Fin n`; the root is
id 0. -/
structure SolvData where
  deps : List Nat
  constrains : List Nat

/-- The mutable state of the worklist loop of
`Solver::add_clauses_for_root_deps` (mod.rs lines 164-261): the DFS stack
(head is the top), the visited set, the seen version-set ids with the cached
sorted candidates, the seen constrains ids with the cached forbidden
candidates, the emitted clauses, and an instrumentation counter of loop
iterations (stack pops). -/
structure BuildState (n : Nat) where
  stack : List (Fin n)
  visited : Finset (Fin n)
  seenRequires : Finset Nat
  sortedCache : List (Nat × List (Fin n))
  seenForbidden : Finset Nat
  forbiddenCache : List (Nat × List (Fin n))
  clauses : List Clause
  pops : Nat

/-- The candidate-pushing inner loop of `add_clauses_for_root_deps` (mod.rs
lines 224-232): each candidate is pushed onto the stack only when
`visited.insert(candidate)` reports it as new. -/
def pushUnseen {n : Nat} : List (Fin n) → Finset (Fin n) → List (Fin n) →
    Finset (Fin n) × List (Fin n)
  | [], visited, stack => (visited, stack)
  | c :: cands, visited, stack =>
    if c ∈ visited then pushUnseen cands visited stack
    else pushUnseen cands (insert c visited) (c :: stack)

/-- The sorted-candidate cache lookup
(`version_set_to_sorted_candidates.get(dep).unwrap_or(&empty_vec)`). -/
def cachedSorted {n : Nat} (st : BuildState n) (dep : Nat) : List (Fin n) :=
  ((st.sortedCache.find? (fun e => e.1 == dep)).map (fun e => e.2)).getD []

/-- The cache miss path for a dependency (mod.rs lines 187-222): on first
sight of a version set, fetch matching candidates, sort them via the provider,
rotate a favored candidate to the front, and cache the result. -/
def updateRequiresCache {n : Nat} (findMatching : Nat → List (Fin n))
    (sortFn : List (Fin n) → List (Fin n)) (favoredFor : Nat → Option (Fin n))
    (st : BuildState n) (dep : Nat) : BuildState n :=
  if dep ∈ st.seenRequires then st
  else
    { st with
      seenRequires := insert dep st.seenRequires,
      sortedCache :=
        (dep, favorCandidates (sortFn (findMatching dep)) (favoredFor dep)) ::
          st.sortedCache }

/-- Processing of one dependency inside the worklist body (mod.rs lines
186-233): update the sorted-candidate cache, then push every not-yet-visited
cached candidate. -/
def processDep {n : Nat} (findMatching : Nat → List (Fin n))
    (sortFn : List (Fin n) → List (Fin n)) (favoredFor : Nat → Option (Fin n))
    (st : BuildState n) (dep : Nat) : BuildState n :=
  let st1 := updateRequiresCache findMatching sortFn favoredFor st dep
  let pv := pushUnseen (cachedSorted st1 dep) st1.visited st1.stack
  { st1 with visited := pv.1, stack := pv.2 }

/-- Processing of one constrains entry (mod.rs lines 245-259): cache the
non-matching candidates on first sight and emit one Constrains clause per
forbidden candidate.  No stack pushes happen here. -/
def processConstraint {n : Nat} (findUnmatched : Nat → List (Fin n)) (s : Fin n)
    (st : BuildState n) (dep : Nat) : BuildState n :=
  let st1 :=
    if dep ∈ st.seenForbidden then st
    else
      { st with
        seenForbidden := insert dep st.seenForbidden,
        forbiddenCache := (dep, findUnmatched dep) :: st.forbiddenCache }
  let forb := ((st1.forbiddenCache.find? (fun e => e.1 == dep)).map (fun e => e.2)).getD []
  { st1 with
    clauses := st1.clauses ++ forb.map (fun b => Clause.Constrains s.val b.val dep) }

/-- One iteration of the worklist loop body for the popped solvable `s`
(mod.rs lines 179-261): process all dependencies (candidate fetching, caching
and pushing), emit one Requires clause per dependency, then process the
constrains entries. -/
def buildIter {n : Nat} (pool : Fin n → SolvData) (findMatching : Nat → List (Fin n))
    (sortFn : List (Fin n) → List (Fin n)) (favoredFor : Nat → Option (Fin n))
    (findUnmatched : Nat → List (Fin n)) (s : Fin n) (st : BuildState n) : BuildState n :=
  let st2 := (pool s).deps.foldl (processDep findMatching sortFn favoredFor) st
  let st3 := { st2 with
    clauses := st2.clauses ++ (pool s).deps.map (fun dep => Clause.Requires s.val dep) }
  (pool s).constrains.foldl (processConstraint findUnmatched s) st3

theorem pushUnseen_accounting {n : Nat} :
    ∀ (cands : List (Fin n)) (visited : Finset (Fin n)) (stack : List (Fin n)),
      (pushUnseen cands visited stack).2.length + visited.card =
        stack.length + (pushUnseen cands visited stack).1.card ∧
      visited ⊆ (pushUnseen cands visited stack).1 := by
  intro cands
  induction cands with
  | nil => intro v st; exact ⟨rfl, Finset.Subset.refl v⟩
  | cons c cs ih =>
    intro v st
    by_cases hc : c ∈ v
    · simpa [pushUnseen, hc] using ih v st
    · simp only [pushUnseen, hc, if_false]
      obtain ⟨h1, h2⟩ := ih (insert c v) (c :: st)
      rw [Finset.card_insert_of_not_mem hc] at h1
      simp only [List.length_cons] at h1
      exact ⟨by omega, Finset.Subset.trans (Finset.subset_insert c v) h2⟩

theorem updateRequiresCache_parts {n : Nat} (findMatching : Nat → List (Fin n))
    (sortFn : List (Fin n) → List (Fin n)) (favoredFor : Nat → Option (Fin n))
    (st : BuildState n) (dep : Nat) :
    (updateRequiresCache findMatching sortFn favoredFor st dep).stack = st.stack ∧
      (updateRequiresCache findMatching sortFn favoredFor st dep).visited = st.visited ∧
      (updateRequiresCache findMatching sortFn favoredFor st dep).pops = st.pops := by
  rw [updateRequiresCache]
  split <;> exact ⟨rfl, rfl, rfl⟩

theorem processDep_accounting {n : Nat} (findMatching : Nat → List (Fin n))
    (sortFn : List (Fin n) → List (Fin n)) (favoredFor : Nat → Option (Fin n))
    (st : BuildState n) (dep : Nat) :
    (processDep findMatching sortFn favoredFor st dep).stack.length + st.visited.card =
        st.stack.length + (processDep findMatching sortFn favoredFor st dep).visited.card ∧
      st.visited ⊆ (processDep findMatching sortFn favoredFor st dep).visited ∧
      (processDep findMatching sortFn favoredFor st dep).pops = st.pops := by
  obtain ⟨hs, hv, hp⟩ := updateRequiresCache_parts findMatching sortFn favoredFor st dep
  obtain ⟨h1, h2⟩ := pushUnseen_accounting
    (cachedSorted (updateRequiresCache findMatching sortFn favoredFor st dep) dep)
    (updateRequiresCache findMatching sortFn favoredFor st dep).visited
    (updateRequiresCache findMatching sortFn favoredFor st dep).stack
  have g1 : (processDep findMatching sortFn favoredFor st dep).stack.length +
      (updateRequiresCache findMatching sortFn favoredFor st dep).visited.card =
      (updateRequiresCache findMatching sortFn favoredFor st dep).stack.length +
        (processDep findMatching sortFn favoredFor st dep).visited.card := h1
  have g2 : (updateRequiresCache findMatching sortFn favoredFor st dep).visited ⊆
      (processDep findMatching sortFn favoredFor st dep).visited := h2
  have g3 : (processDep findMatching sortFn favoredFor st dep).pops =
      (updateRequiresCache findMatching sortFn favoredFor st dep).pops := rfl
  rw [hs, hv] at g1
  rw [hv] at g2
  rw [hp] at g3
  exact ⟨g1, g2, g3⟩

theorem foldl_processDep_accounting {n : Nat} (findMatching : Nat → List (Fin n))
    (sortFn : List (Fin n) → List (Fin n)) (favoredFor : Nat → Option (Fin n)) :
    ∀ (deps : List Nat) (st : BuildState n),
      (deps.foldl (processDep findMatching sortFn favoredFor) st).stack.length +
          st.visited.card =
        st.stack.length +
          (deps.foldl (processDep findMatching sortFn favoredFor) st).visited.card ∧
      st.visited ⊆ (deps.foldl (processDep findMatching sortFn favoredFor) st).visited ∧
      (deps.foldl (processDep findMatching sortFn favoredFor) st).pops = st.pops := by
  intro deps
  induction deps with
  | nil => intro st; exact ⟨rfl, Finset.Subset.refl _, rfl⟩
  | cons d ds ih =>
    intro st
    rw [List.foldl_cons]
    obtain ⟨h1, h2, h3⟩ := processDep_accounting findMatching sortFn favoredFor st d
    obtain ⟨h4, h5, h6⟩ := ih (processDep findMatching sortFn favoredFor st d)
    have hcard : st.visited.card ≤ (processDep findMatching sortFn favoredFor st d).visited.card :=
      Finset.card_le_card h2
    refine ⟨by omega, Finset.Subset.trans h2 h5, by omega⟩

theorem processConstraint_parts {n : Nat} (findUnmatched : Nat → List (Fin n)) (s : Fin n)
    (st : BuildState n) (dep : Nat) :
    (processConstraint findUnmatched s st dep).stack = st.stack ∧
      (processConstraint findUnmatched s st dep).visited = st.visited ∧
      (processConstraint findUnmatched s st dep).pops = st.pops := by
  rw [processConstraint]
  split <;> exact ⟨rfl, rfl, rfl⟩

theorem foldl_processConstraint_parts {n : Nat} (findUnmatched : Nat → List (Fin n))
    (s : Fin n) :
    ∀ (constr : List Nat) (st : BuildState n),
      (constr.foldl (processConstraint findUnmatched s) st).stack = st.stack ∧
        (constr.foldl (processConstraint findUnmatched s) st).visited = st.visited ∧
        (constr.foldl (processConstraint findUnmatched s) st).pops = st.pops := by
  intro constr
  induction constr with
  | nil => intro st; exact ⟨rfl, rfl, rfl⟩
  | cons d ds ih =>
    intro st
    rw [List.foldl_cons]
    obtain ⟨h1, h2, h3⟩ := processConstraint_parts findUnmatched s st d
    obtain ⟨h4, h5, h6⟩ := ih (processConstraint findUnmatched s st d)
    exact ⟨by rw [h4, h1], by rw [h5, h2], by rw [h6, h3]⟩

theorem buildIter_accounting {n : Nat} (pool : Fin n → SolvData)
    (findMatching : Nat → List (Fin n)) (sortFn : List (Fin n) → List (Fin n))
    (favoredFor : Nat → Option (Fin n)) (findUnmatched : Nat → List (Fin n))
    (s : Fin n) (st : BuildState n) :
    (buildIter pool findMatching sortFn favoredFor findUnmatched s st).stack.length +
        st.visited.card =
      st.stack.length +
        (buildIter pool findMatching sortFn favoredFor findUnmatched s st).visited.card ∧
      st.visited.card ≤
        (buildIter pool findMatching sortFn favoredFor findUnmatched s st).visited.card ∧
      (buildIter pool findMatching sortFn favoredFor findUnmatched s st).visited.card ≤ n ∧
      (buildIter pool findMatching sortFn favoredFor findUnmatched s st).pops = st.pops := by
  obtain ⟨h1, h2, h3⟩ :=
    foldl_processDep_accounting findMatching sortFn favoredFor (pool s).deps st
  set st2 := (pool s).deps.foldl (processDep findMatching sortFn favoredFor) st with hst2
  obtain ⟨h4, h5, h6⟩ := foldl_processConstraint_parts findUnmatched s (pool s).constrains
    { st2 with
      clauses := st2.clauses ++ (pool s).deps.map (fun dep => Clause.Requires s.val dep) }
  have hbs : (buildIter pool findMatching sortFn favoredFor findUnmatched s st).stack =
      st2.stack := h4
  have hbv : (buildIter pool findMatching sortFn favoredFor findUnmatched s st).visited =
      st2.visited := h5
  have hbp : (buildIter pool findMatching sortFn favoredFor findUnmatched s st).pops =
      st2.pops := h6
  rw [hbs, hbv, hbp]
  refine ⟨h1, Finset.card_le_card h2, ?_, h3⟩
  calc st2.visited.card ≤ Fintype.card (Fin n) := Finset.card_le_univ _
  _ = n := Fintype.card_fin n

theorem buildMeasure_decreases {n bLen bCard stCard restLen : Nat}
    (h1 : bLen + stCard = restLen + bCard) (h2 : stCard ≤ bCard) (h3 : bCard ≤ n) :
    bLen + (n - bCard) < restLen + 1 + (n - stCard) := by omega


/-- The worklist loop of `Solver::add_clauses_for_root_deps` (mod.rs lines
179-261): `while let Some(solvable_id) = stack.pop()`, counting each pop.
Termination is by the measure `stack length + unvisited solvables`: every push
is coupled to a fresh insertion into the visited set. -/
def buildLoop {n : Nat} (pool : Fin n → SolvData) (findMatching : Nat → List (Fin n))
    (sortFn : List (Fin n) → List (Fin n)) (favoredFor : Nat → Option (Fin n))
    (findUnmatched : Nat → List (Fin n)) (st : BuildState n) : BuildState n :=
  match hs : st.stack with
  | [] => st
  | s :: rest =>
    buildLoop pool findMatching sortFn favoredFor findUnmatched
      (buildIter pool findMatching sortFn favoredFor findUnmatched s
        { st with stack := rest, pops := st.pops + 1 })
termination_by st.stack.length + (n - st.visited.card)
decreasing_by
  obtain ⟨h1, h2, h3, -⟩ := buildIter_accounting pool findMatching sortFn favoredFor
    findUnmatched s { st with stack := rest, pops := st.pops + 1 }
  rw [hs]
  simp only [List.length_cons]
  exact buildMeasure_decreases h1 h2 h3

theorem buildLoop_pops_le {n : Nat} (pool : Fin n → SolvData)
    (findMatching : Nat → List (Fin n)) (sortFn : List (Fin n) → List (Fin n))
    (favoredFor : Nat → Option (Fin n)) (findUnmatched : Nat → List (Fin n)) :
    ∀ st : BuildState n,
      (buildLoop pool findMatching sortFn favoredFor findUnmatched st).pops ≤
        st.pops + st.stack.length + (n - st.visited.card) := by
  intro st
  induction st using buildLoop.induct pool findMatching sortFn favoredFor findUnmatched with
  | case1 st hs =>
    have e : buildLoop pool findMatching sortFn favoredFor findUnmatched st = st := by
      rw [buildLoop, hs]
    rw [e]
    omega
  | case2 st s rest hs ih =>
    have e : buildLoop pool findMatching sortFn favoredFor findUnmatched st =
        buildLoop pool findMatching sortFn favoredFor findUnmatched
          (buildIter pool findMatching sortFn favoredFor findUnmatched s
            { st with stack := rest, pops := st.pops + 1 }) := by
      rw [buildLoop, hs]
    obtain ⟨h1, h2, h3, h4⟩ := buildIter_accounting pool findMatching sortFn favoredFor
      findUnmatched s { st with stack := rest, pops := st.pops + 1 }
    have e1 : ({ st with stack := rest, pops := st.pops + 1 } : BuildState n).visited.card =
        st.visited.card := rfl
    have e2 : ({ st with stack := rest, pops := st.pops + 1 } : BuildState n).stack.length =
        rest.length := rfl
    have e3 : ({ st with stack := rest, pops := st.pops + 1 } : BuildState n).pops =
        st.pops + 1 := rfl
    rw [e, hs]
    simp only [List.length_cons]
    omega

/-- The initial worklist state of `add_clauses_for_root_deps` (mod.rs lines
165-177): only the root solvable (id 0) on the stack, everything else empty. -/
def initBuildState {n : Nat} (root : Fin n) : BuildState n :=
  ⟨[root], ∅, ∅, [], ∅, [], [], 0⟩

/-- **C8.** The worklist loop of `add_clauses_for_root_deps` terminates for
every finite pool (the loop function is total, by the measure
`stack length + number of unvisited solvables`): besides the single initial
push of the root, a solvable id is pushed onto the stack only when it is newly
inserted into the visited set — each push is matched by a fresh
visited-insertion, as the `pushUnseen` accounting states — so each solvable is
pushed at most once and the loop pops at most `n + 1` items for a pool of `n`
solvables. -/
theorem addClausesForRootDeps_worklist_bound {n : Nat} (hn : 0 < n)
    (pool : Fin n → SolvData) (findMatching : Nat → List (Fin n))
    (sortFn : List (Fin n) → List (Fin n)) (favoredFor : Nat → Option (Fin n))
    (findUnmatched : Nat → List (Fin n)) :
    (∀ (cands : List (Fin n)) (visited : Finset (Fin n)) (stack : List (Fin n)),
      (pushUnseen cands visited stack).2.length + visited.card =
        stack.length + (pushUnseen cands visited stack).1.card) ∧
      (buildLoop pool findMatching sortFn favoredFor findUnmatched
          (initBuildState ⟨0, hn⟩)).pops ≤ n + 1 := by
  refine ⟨fun cands v st => (pushUnseen_accounting cands v st).1, ?_⟩
  have h := buildLoop_pops_le pool findMatching sortFn favoredFor findUnmatched
    (initBuildState ⟨0, hn⟩)
  have e1 : (initBuildState (⟨0, hn⟩ : Fin n)).pops = 0 := rfl
  have e2 : (initBuildState (⟨0, hn⟩ : Fin n)).stack.length = 1 := rfl
  have e3 : (initBuildState (⟨0, hn⟩ : Fin n)).visited.card = 0 := rfl
  omega

/-- Witness for C8 on a two-solvable pool in which every version set matches
both solvables. -/
theorem addClausesForRootDeps_worklist_bound_witness :
    0 < 2 ∧
      ((∀ (cands : List (Fin 2)) (visited : Finset (Fin 2)) (stack : List (Fin 2)),
        (pushUnseen cands visited stack).2.length + visited.card =
          stack.length + (pushUnseen cands visited stack).1.card) ∧
        (buildLoop (fun _ => SolvData.mk [0] []) (fun _ => [0, 1]) id (fun _ => none)
            (fun _ => []) (initBuildState (⟨0, by decide⟩ : Fin 2))).pops ≤ 2 + 1) :=
  ⟨by decide, @addClausesForRootDeps_worklist_bound 2 (by decide)
    (fun _ => SolvData.mk [0] []) (fun _ => [0, 1]) id (fun _ => none) (fun _ => [])⟩

/-! ## C4: conflict analysis (`Solver::analyze`) -/

/-- The accumulator threaded through `Solver::analyze`'s literal visits
(mod.rs lines 796-799): the seen set, the count of unresolved causes at the
current level, the learnt literal list, and the running backtrack target.
`lowerLevels` additionally records, purely observationally, the decision level
of each learnt literal collected below the conflict level (the level whose max
the code folds into `back_track_to`). -/
structure AnalyzeAcc where
  seen : Finset Nat
  causes : Nat
  learnt : List Literal
  lowerLevels : List Nat
  backTrackTo : Nat
deriving DecidableEq

/-- The literal-visit closure of `Solver::analyze` (mod.rs lines 807-839):
skip the propagated solvable after the first iteration, skip literals already
seen; literals at the current level bump the cause counter; literals at lower
levels (requiring `current_level > 1`, otherwise `unreachable!`, modelled as
failure) append their negation to the learnt clause and fold their decision
level into the backtrack target.  An undecided literal makes the
`assigned_value(...).unwrap()` panic, modelled as failure. -/
def analyzeVisitLiteral (m : DecisionMap) (firstIteration : Bool)
    (conflictingSolvable : Nat) (currentLevel : Nat) (acc : AnalyzeAcc)
    (lit : Literal) : Option AnalyzeAcc :=
  if !firstIteration && lit.solvable_id == conflictingSolvable then some acc
  else if lit.solvable_id ∈ acc.seen then some acc
  else
    let acc1 := { acc with seen := insert lit.solvable_id acc.seen }
    let decisionLevel := m.level lit.solvable_id
    if decisionLevel = currentLevel then
      some { acc1 with causes := acc1.causes + 1 }
    else if 1 < currentLevel then
      match m.value lit.solvable_id with
      | none => none
      | some v =>
        some { acc1 with
          learnt := acc1.learnt ++ [⟨lit.solvable_id, v⟩],
          lowerLevels := acc1.lowerLevels ++ [decisionLevel],
          backTrackTo := max acc1.backTrackTo decisionLevel }
    else none

/-- `visit_literals` over a clause's literal list, folding
`analyzeVisitLiteral` left to right. -/
def analyzeVisitAll (m : DecisionMap) (firstIteration : Bool)
    (conflictingSolvable : Nat) (currentLevel : Nat) (acc : AnalyzeAcc)
    (lits : List Literal) : Option AnalyzeAcc :=
  lits.foldlM (analyzeVisitLiteral m firstIteration conflictingSolvable currentLevel) acc

/-- The inner undo loop of `Solver::analyze` (mod.rs lines 844-858): pop
decisions (resetting their map entries) until one in the seen set is found;
an empty stack makes `undo_last`'s unwrap panic, modelled as failure.
Returns the found decision, its level, and the map and trail after the pops. -/
def analyzeNextSeen (seen : Finset Nat) : DecisionMap → List Decision →
    Option (Decision × Nat × DecisionMap × List Decision)
  | _, [] => none
  | m, d :: rest =>
    if d.solvable_id ∈ seen then
      some (d, m.level d.solvable_id, m.reset d.solvable_id, rest)
    else analyzeNextSeen seen (m.reset d.solvable_id) rest

/-- The state carried out of `Solver::analyze`'s main loop when the cause
counter reaches zero (mod.rs lines 860-863). -/
structure AnalyzeLoopResult where
  acc : AnalyzeAcc
  learntWhy : List Nat
  conflictingSolvable : Nat
  sValue : Bool
  map : DecisionMap
  trail : List Decision
deriving DecidableEq

/-- The main loop of `Solver::analyze` (mod.rs lines 804-864), with explicit
fuel (each iteration pops at least one decision, so `trail length + 1` fuel
always suffices): record the clause in `learnt_why`, visit its literals,
select the next seen decision by undoing, decrement the cause counter
(saturating), and stop when it reaches zero. -/
def analyzeLoop (clauses : List ClauseState) (sortedCands : Nat → List Nat)
    (learntStore : List (List Literal)) :
    Nat → Nat → Nat → Nat → Bool → AnalyzeAcc → List Nat → DecisionMap →
    List Decision → Option AnalyzeLoopResult
  | 0, _, _, _, _, _, _, _, _ => none
  | fuel + 1, currentLevel, conflictingSolvable, clauseId, firstIteration, acc,
      learntWhy, m, trail =>
    let learntWhy1 := learntWhy ++ [clauseId]
    match clauses[clauseId]? with
    | none => none
    | some cl =>
      match cl.kind.literals sortedCands learntStore with
      | none => none
      | some lits =>
        match analyzeVisitAll m firstIteration conflictingSolvable currentLevel acc
            lits with
        | none => none
        | some acc1 =>
          match analyzeNextSeen acc1.seen m trail with
          | none => none
          | some (d, lvl, m1, trail1) =>
            let acc2 := { acc1 with causes := acc1.causes - 1 }
            if acc2.causes = 0 then
              some ⟨acc2, learntWhy1, d.solvable_id, d.value, m1, trail1⟩
            else
              analyzeLoop clauses sortedCands learntStore fuel lvl d.solvable_id
                d.derived_from false acc2 learntWhy1 m1 trail1

/-- Modelled from the spec (§4.3): the watched-literal choice of
`ClauseState::new` — two literal positions whose solvables are currently true
or undecided, preferring later positions; fewer than two eligible positions
means the clause has no watches. -/
def chooseWatches (lits : List Literal) (m : DecisionMap) : Option (Nat × Nat) :=
  let eligible := (List.range lits.length).filter (fun idx =>
    match lits[idx]? with
    | some lit => lit.eval m != some false
    | none => false)
  match eligible.reverse with
  | i :: j :: _ => some (j, i)
  | _ => none

/-- Everything `Solver::analyze` produces and mutates (mod.rs lines 866-906):
the returned triple (target level, learnt clause id, asserting literal), the
learnt literal list, the observational `lowerLevels`, the raw `back_track_to`,
the tracker state just after the loop (before backtracking) and after
`undo_until`, and the clause list with the learnt clause appended. -/
structure AnalyzeResult where
  targetLevel : Nat
  learntClauseId : Nat
  lastLiteral : Literal
  learnt : List Literal
  learntWhy : List Nat
  lowerLevels : List Nat
  backTrackTo : Nat
  mapAfterLoop : DecisionMap
  trailAfterLoop : List Decision
  mapFinal : DecisionMap
  trailFinal : List Decision
  clausesFinal : List ClauseState
deriving DecidableEq

/-- `Solver::analyze` (mod.rs lines 790-906): run the loop, append the
asserting literal, allocate and push the learnt clause, compute the backtrack
target `max(back_track_to, 1)`, call `undo_until(target)` and return the
target as the first component. -/
def analyze (clauses : List ClauseState) (sortedCands : Nat → List Nat)
    (learntStore : List (List Literal)) (tracker : DecisionTracker)
    (currentLevel : Nat) (conflictingSolvable : Nat) (clauseId : Nat) :
    Option AnalyzeResult :=
  match analyzeLoop clauses sortedCands learntStore (tracker.trail.length + 1)
      currentLevel conflictingSolvable clauseId true ⟨∅, 0, [], [], 0⟩ []
      tracker.map tracker.trail with
  | none => none
  | some r =>
    let lastLit : Literal := ⟨r.conflictingSolvable, r.sValue⟩
    let learnt := r.acc.learnt ++ [lastLit]
    let newClauseId := clauses.length
    let newClause : ClauseState := ⟨.Learnt learntStore.length, chooseWatches learnt r.map⟩
    let target := max r.acc.backTrackTo 1
    let u := undoUntilAux r.map r.trail target
    some ⟨target, newClauseId, lastLit, learnt, r.learntWhy, r.acc.lowerLevels,
      r.acc.backTrackTo, r.map, r.trail, u.1, u.2, clauses ++ [newClause]⟩

theorem foldr_max_append (l : List Nat) (x : Nat) :
    (l ++ [x]).foldr max 0 = max (l.foldr max 0) x := by
  induction l with
  | nil =>
    simp only [List.nil_append, List.foldr_cons, List.foldr_nil]
    omega
  | cons a l ih =>
    simp only [List.cons_append, List.foldr_cons, ih]
    omega

theorem analyzeVisitLiteral_inv (m : DecisionMap) (first : Bool) (conf cur : Nat)
    (acc acc2 : AnalyzeAcc) (lit : Literal)
    (hinv : acc.backTrackTo = acc.lowerLevels.foldr max 0)
    (h : analyzeVisitLiteral m first conf cur acc lit = some acc2) :
    acc2.backTrackTo = acc2.lowerLevels.foldr max 0 := by
  simp only [analyzeVisitLiteral] at h
  split at h
  · cases h; exact hinv
  · split at h
    · cases h; exact hinv
    · split at h
      · cases h; exact hinv
      · split at h
        · split at h
          · exact Option.noConfusion h
          · cases h
            show max acc.backTrackTo (m.level lit.solvable_id) =
              (acc.lowerLevels ++ [m.level lit.solvable_id]).foldr max 0
            rw [foldr_max_append, hinv]
        · exact Option.noConfusion h

theorem analyzeVisitAll_inv (m : DecisionMap) (first : Bool) (conf cur : Nat) :
    ∀ (lits : List Literal) (acc acc2 : AnalyzeAcc),
      acc.backTrackTo = acc.lowerLevels.foldr max 0 →
      analyzeVisitAll m first conf cur acc lits = some acc2 →
      acc2.backTrackTo = acc2.lowerLevels.foldr max 0 := by
  intro lits
  induction lits with
  | nil =>
    intro acc acc2 hinv h
    rw [analyzeVisitAll, List.foldlM_nil] at h
    cases h
    exact hinv
  | cons lit lits ih =>
    intro acc acc2 hinv h
    rw [analyzeVisitAll, List.foldlM_cons] at h
    cases hv : analyzeVisitLiteral m first conf cur acc lit with
    | none => rw [hv] at h; exact Option.noConfusion h
    | some acc1 =>
      rw [hv] at h
      have h' : analyzeVisitAll m first conf cur acc1 lits = some acc2 := h
      exact ih acc1 acc2 (analyzeVisitLiteral_inv m first conf cur acc acc1 lit hinv hv) h'

theorem analyzeLoop_inv (clauses : List ClauseState) (sortedCands : Nat → List Nat)
    (learntStore : List (List Literal)) :
    ∀ (fuel cur conf cid : Nat) (first : Bool) (acc : AnalyzeAcc) (lw : List Nat)
      (m : DecisionMap) (trail : List Decision) (r : AnalyzeLoopResult),
      acc.backTrackTo = acc.lowerLevels.foldr max 0 →
      analyzeLoop clauses sortedCands learntStore fuel cur conf cid first acc lw m
        trail = some r →
      r.acc.backTrackTo = r.acc.lowerLevels.foldr max 0 := by
  intro fuel
  induction fuel with
  | zero =>
    intro cur conf cid first acc lw m trail r hinv h
    rw [analyzeLoop] at h
    exact Option.noConfusion h
  | succ fuel ih =>
    intro cur conf cid first acc lw m trail r hinv h
    simp only [analyzeLoop] at h
    split at h
    · exact Option.noConfusion h
    rename_i cl hcl
    split at h
    · exact Option.noConfusion h
    rename_i lits hlits
    split at h
    · exact Option.noConfusion h
    rename_i acc1 hacc1
    split at h
    · exact Option.noConfusion h
    rename_i d lvl m1 trail1 hnext
    have hi : acc1.backTrackTo = acc1.lowerLevels.foldr max 0 :=
      analyzeVisitAll_inv m first conf cur lits acc acc1 hinv hacc1
    split at h
    · cases h
      exact hi
    · exact ih lvl d.solvable_id d.derived_from false
        { acc1 with causes := acc1.causes - 1 } (lw ++ [cid]) m1 trail1 r hi h

theorem analyze_backtrack_aux (clauses : List ClauseState)
    (sortedCands : Nat → List Nat) (learntStore : List (List Literal))
    (tracker : DecisionTracker) (currentLevel conflictingSolvable clauseId : Nat)
    (r : AnalyzeResult)
    (hres : analyze clauses sortedCands learntStore tracker currentLevel
      conflictingSolvable clauseId = some r) :
    r.targetLevel = max (r.lowerLevels.foldr max 0) 1 ∧
      r.targetLevel = max r.backTrackTo 1 ∧
      (⟨r.mapFinal, r.trailFinal⟩ : DecisionTracker) =
        DecisionTracker.undo_until ⟨r.mapAfterLoop, r.trailAfterLoop⟩ r.targetLevel := by
  simp only [analyze] at hres
  split at hres
  · exact Option.noConfusion hres
  rename_i rl hloop
  have hinv : rl.acc.backTrackTo = rl.acc.lowerLevels.foldr max 0 :=
    analyzeLoop_inv clauses sortedCands learntStore (tracker.trail.length + 1)
      currentLevel conflictingSolvable clauseId true ⟨∅, 0, [], [], 0⟩ []
      tracker.map tracker.trail rl rfl hloop
  cases hres
  refine ⟨?_, rfl, rfl⟩
  show max rl.acc.backTrackTo 1 = max (rl.acc.lowerLevels.foldr max 0) 1
  rw [hinv]

/-- **C4.** `analyze` backtracks to level `max(back_track_to, 1)`, where
`back_track_to` is the maximum decision level among the learnt literals
collected from levels below the conflict level (the fold of the collected
levels, 0 when none); it calls `undo_until` with exactly that target level
before returning, and returns that target level as the first component of its
result. -/
theorem analyze_backtrack_spec (clauses : List ClauseState)
    (sortedCands : Nat → List Nat) (learntStore : List (List Literal))
    (tracker : DecisionTracker) (currentLevel conflictingSolvable clauseId : Nat)
    (h : (analyze clauses sortedCands learntStore tracker currentLevel
      conflictingSolvable clauseId).isSome = true) :
    ((analyze clauses sortedCands learntStore tracker currentLevel
          conflictingSolvable clauseId).get h).targetLevel =
        max (((analyze clauses sortedCands learntStore tracker currentLevel
          conflictingSolvable clauseId).get h).lowerLevels.foldr max 0) 1 ∧
      ((analyze clauses sortedCands learntStore tracker currentLevel
          conflictingSolvable clauseId).get h).targetLevel =
        max ((analyze clauses sortedCands learntStore tracker currentLevel
          conflictingSolvable clauseId).get h).backTrackTo 1 ∧
      (⟨((analyze clauses sortedCands learntStore tracker currentLevel
            conflictingSolvable clauseId).get h).mapFinal,
          ((analyze clauses sortedCands learntStore tracker currentLevel
            conflictingSolvable clauseId).get h).trailFinal⟩ : DecisionTracker) =
        DecisionTracker.undo_until
          ⟨((analyze clauses sortedCands learntStore tracker currentLevel
              conflictingSolvable clauseId).get h).mapAfterLoop,
            ((analyze clauses sortedCands learntStore tracker currentLevel
              conflictingSolvable clauseId).get h).trailAfterLoop⟩
          ((analyze clauses sortedCands learntStore tracker currentLevel
            conflictingSolvable clauseId).get h).targetLevel := by
  obtain ⟨res, hres⟩ := Option.isSome_iff_exists.mp h
  have hget : (analyze clauses sortedCands learntStore tracker currentLevel
      conflictingSolvable clauseId).get h = res :=
    Option.get_of_mem h (Option.mem_def.mpr hres)
  rw [hget]
  exact analyze_backtrack_aux clauses sortedCands learntStore tracker currentLevel
    conflictingSolvable clauseId res hres

/-- Conflict-analysis scenario for the C4 witness: clauses
`[InstallRoot, Requires(0, vs0), Requires(1, vs1), Forbid(2, 3),
Requires(1, vs2)]`. -/
def c4clauses : List ClauseState :=
  [⟨.InstallRoot, none⟩,
   ⟨.Requires 0 0, some (0, 1)⟩,
   ⟨.Requires 1 1, some (0, 1)⟩,
   ⟨.ForbidMultipleInstances 2 3, some (0, 1)⟩,
   ⟨.Requires 1 2, some (0, 1)⟩]

/-- Sorted-candidate cache for the C4 witness: vs0 = [1], vs1 = [3],
vs2 = [2]. -/
def c4sorted : Nat → List Nat := fun vs =>
  if vs = 0 then [1] else if vs = 1 then [3] else if vs = 2 then [2] else []

/-- Tracker for the C4 witness: root and solvable 1 true at level 1,
solvables 2 and 3 true at level 2; the conflict is the Forbid(2, 3) clause. -/
def c4tracker : DecisionTracker :=
  ⟨⟨[(3, 2), (2, 2), (1, 1), (0, 1)]⟩,
   [Decision.new 3 true 2, Decision.new 2 true 4, Decision.new 1 true 1,
    Decision.new 0 true 0]⟩

/-- Witness for C4 at a concrete level-2 conflict on `Forbid(2, 3)`. -/
theorem analyze_backtrack_spec_witness :
    (analyze c4clauses c4sorted [] c4tracker 2 3 3).isSome = true ∧
      (((analyze c4clauses c4sorted [] c4tracker 2 3 3).get (by decide)).targetLevel =
          max (((analyze c4clauses c4sorted [] c4tracker 2 3
            3).get (by decide)).lowerLevels.foldr max 0) 1 ∧
        ((analyze c4clauses c4sorted [] c4tracker 2 3 3).get (by decide)).targetLevel =
          max ((analyze c4clauses c4sorted [] c4tracker 2 3
            3).get (by decide)).backTrackTo 1 ∧
        (⟨((analyze c4clauses c4sorted [] c4tracker 2 3 3).get (by decide)).mapFinal,
            ((analyze c4clauses c4sorted [] c4tracker 2 3
              3).get (by decide)).trailFinal⟩ : DecisionTracker) =
          DecisionTracker.undo_until
            ⟨((analyze c4clauses c4sorted [] c4tracker 2 3
                3).get (by decide)).mapAfterLoop,
              ((analyze c4clauses c4sorted [] c4tracker 2 3
                3).get (by decide)).trailAfterLoop⟩
            ((analyze c4clauses c4sorted [] c4tracker 2 3
              3).get (by decide)).targetLevel) :=
  ⟨by decide, analyze_backtrack_spec c4clauses c4sorted [] c4tracker 2 3 3 (by decide)⟩
